import Mathlib

/-!
Verification development for the Ongdu card game engine.

The definitions below are a shallow embedding of the TypeScript sources:
the data model from src/lib/types.ts, the hand-evaluation / matchup /
round-scoring functions from the game-logic module (the later variant with
category-based layer points, the wildcard-forces-9 sum rule and the
special-hand detector), and the AI search functions from src/lib/ai.ts.

Modelling conventions:
  * TypeScript arrays of possibly-null cards become `List (Option Card)`.
  * Display-only `description` strings of hand evaluations are omitted;
    no verified function reads them.
  * `-Infinity` sentinels used by the AI scoring become `Option Nat`
    (`none` is minus infinity); `optGT` mirrors the strict `>` used by
    the search loops.
  * Out-of-range index accesses of the source (unreachable under the
    guards the source establishes first) are made total with `getD` and
    explicit default values.
-/

/-! ## Data model (src/lib/types.ts) -/

inductive Suit where
  | hearts | diamonds | clubs | spades | wild
deriving DecidableEq

inductive Rank where
  | r2 | r3 | r4 | r5 | r6 | r7 | r8 | r9 | r10
  | J | Q | K | A | WILD
deriving DecidableEq

structure Card where
  id : String
  suit : Suit
  rank : Rank
  isWild : Bool
deriving DecidableEq

/-- Hand types ranked from highest (1) to lowest (6). -/
inductive HandType where
  | THREE_OF_KIND_PURE
  | STRAIGHT_FLUSH_JQK
  | STRAIGHT_JQK
  | THREE_OF_KIND_WILD
  | THREE_FACE_CARDS
  | SUM_MODULO
deriving DecidableEq

/-- The numeric value of the TypeScript `HandType` enum (1 = strongest). -/
def HandType.num : HandType → Nat
  | .THREE_OF_KIND_PURE => 1
  | .STRAIGHT_FLUSH_JQK => 2
  | .STRAIGHT_JQK => 3
  | .THREE_OF_KIND_WILD => 4
  | .THREE_FACE_CARDS => 5
  | .SUM_MODULO => 6

/-- Hand evaluation; the display-only `description` field of the source is
omitted.  `isSameSuit` is only set by the sum-modulo branches of the
evaluator (absent elsewhere in the source, i.e. falsy). -/
structure HandEvaluation where
  type : HandType
  value : Nat
  isSameSuit : Bool
deriving DecidableEq

structure Layer where
  cards : List (Option Card)
deriving DecidableEq

structure PlayerArrangement where
  top : Layer
  middle : Layer
  bottom : Layer
deriving DecidableEq

/-- Player record; fields the verified functions never read
(isHuman, cash, hand, isReady) are omitted. -/
structure Player where
  id : String
  name : String
  isBankrupt : Bool
  arrangement : Option PlayerArrangement
deriving DecidableEq

structure LayerComparison where
  layer : String
  player1Score : Nat
  player2Score : Nat
  winner : Option String
deriving DecidableEq

structure MatchupResult where
  player1Id : String
  player2Id : String
  layerComparisons : List LayerComparison
  player1TotalPoints : Nat
  player2TotalPoints : Nat
  player1Foul : Bool
  player2Foul : Bool
deriving DecidableEq

/-- The `pointsAgainst` records (JS objects keyed by player id) become
insertion-ordered association lists with JS assignment semantics. -/
structure RoundScore where
  playerId : String
  playerName : String
  pointsAgainst : List (String × Int)
  totalPoints : Int
  cashChange : Int
deriving DecidableEq

/-! ## Hand evaluation (game-logic module) -/

/-- Source `getRankValue` — scoring value of a rank (A = 1, J/Q/K = 10, wild 0). -/
def getRankValue : Rank → Nat
  | .WILD => 0
  | .r2 => 2 | .r3 => 3 | .r4 => 4 | .r5 => 5 | .r6 => 6
  | .r7 => 7 | .r8 => 8 | .r9 => 9 | .r10 => 10
  | .J => 10 | .Q => 10 | .K => 10
  | .A => 1

/-- Source `getComparisonRankValue` — tiebreaker value of a rank (Ace high). -/
def getComparisonRankValue : Rank → Nat
  | .WILD => 0
  | .r2 => 2 | .r3 => 3 | .r4 => 4 | .r5 => 5 | .r6 => 6
  | .r7 => 7 | .r8 => 8 | .r9 => 9 | .r10 => 10
  | .J => 11 | .Q => 12 | .K => 13
  | .A => 14

def isFaceCard (r : Rank) : Bool :=
  r == .J || r == .Q || r == .K

/-- Source `isJQKStraight` — the non-wild cards, completed by wildcards, can form
J-Q-K (any order). -/
def isJQKStraight (cards : List Card) : Bool :=
  let nonWildCards := cards.filter (fun c => !c.isWild)
  let wildCount := (cards.filter (fun c => c.isWild)).length
  let ranks := nonWildCards.map (fun c => c.rank)
  let needed := [Rank.J, Rank.Q, Rank.K].filter (fun r => !(ranks.contains r))
  decide (needed.length ≤ wildCount) && nonWildCards.all (fun c => isFaceCard c.rank)

/-- Source `isJQKStraightFlush` — a J-Q-K straight whose non-wild cards share one suit. -/
def isJQKStraightFlush (cards : List Card) : Bool :=
  if !isJQKStraight cards then false
  else
    let nonWildCards := cards.filter (fun c => !c.isWild)
    match nonWildCards with
    | [] => true
    | c0 :: _ => nonWildCards.all (fun c => c.suit == c0.suit)

def isThreeFaceCards (cards : List Card) : Bool :=
  cards.all (fun c => c.isWild || isFaceCard c.rank)

/-- Source `isSameSuit` — all non-wild cards share one suit (trivially true with
at most one non-wild card). -/
def isSameSuit (cards : List Card) : Bool :=
  let nonWildCards := cards.filter (fun c => !c.isWild)
  if nonWildCards.length ≤ 1 then true
  else
    match nonWildCards with
    | [] => true
    | c0 :: _ => nonWildCards.all (fun c => c.suit == c0.suit)

structure ThreeOfKindResult where
  isThreeOfKind : Bool
  hasWild : Bool
  rankValue : Nat
deriving DecidableEq

/-- Source `isThreeOfKind` — three of a kind with or without wildcards.  The
source indexes `nonWildCards[0]`/`[1]`/`[2]` only where the wild count
guarantees they exist (the input always has exactly 3 cards); missing
cases are made total with dead `⟨false, false, 0⟩` branches. -/
def isThreeOfKind (cards : List Card) : ThreeOfKindResult :=
  let nonWildCards := cards.filter (fun c => !c.isWild)
  let wildCount := (cards.filter (fun c => c.isWild)).length
  if wildCount == 3 then ⟨true, true, 0⟩
  else if wildCount == 2 then
    match nonWildCards with
    | c0 :: _ => ⟨true, true, getComparisonRankValue c0.rank⟩
    | [] => ⟨false, false, 0⟩
  else if wildCount == 1 then
    match nonWildCards with
    | c0 :: c1 :: _ =>
      if c0.rank == c1.rank then ⟨true, true, getComparisonRankValue c0.rank⟩
      else ⟨false, false, 0⟩
    | _ => ⟨false, false, 0⟩
  else
    match nonWildCards with
    | c0 :: c1 :: c2 :: _ =>
      if c0.rank == c1.rank && c1.rank == c2.rank then
        ⟨true, false, getComparisonRankValue c0.rank⟩
      else ⟨false, false, 0⟩
    | _ => ⟨false, false, 0⟩

/-- Source `getSumModulo` — sum of scoring rank values (wildcards count 0) mod 10. -/
def getSumModulo (cards : List Card) : Nat :=
  (cards.foldl (fun acc c => if c.isWild then acc else acc + getRankValue c.rank) 0) % 10

/-- The sentinel returned for malformed input (the invalid-hand value). -/
def invalidHandEvaluation : HandEvaluation :=
  ⟨HandType.SUM_MODULO, 0, false⟩

/-- Body of `evaluateHand` once the 3-card guard has passed. -/
def evalThreeCards (cards : List Card) : HandEvaluation :=
  let threeOfKind := isThreeOfKind cards
  if threeOfKind.isThreeOfKind && !threeOfKind.hasWild then
    ⟨HandType.THREE_OF_KIND_PURE, threeOfKind.rankValue, false⟩
  else if isJQKStraightFlush cards then
    ⟨HandType.STRAIGHT_FLUSH_JQK, 100, false⟩
  else if isJQKStraight cards then
    ⟨HandType.STRAIGHT_JQK, 100, false⟩
  else if threeOfKind.isThreeOfKind && threeOfKind.hasWild then
    ⟨HandType.THREE_OF_KIND_WILD, threeOfKind.rankValue, false⟩
  else if isThreeFaceCards cards then
    ⟨HandType.THREE_FACE_CARDS,
      cards.foldl (fun sum c => sum + getComparisonRankValue c.rank) 0, false⟩
  else
    let hasWildcard := cards.any (fun c => c.isWild)
    let sameSuit := isSameSuit cards
    if hasWildcard then
      ⟨HandType.SUM_MODULO, 9, sameSuit⟩
    else
      ⟨HandType.SUM_MODULO, getSumModulo cards, sameSuit⟩

/-- Source `evaluateHand` — evaluate a 3-card hand; defensively returns the
weakest-category sentinel for a wrong card count or an empty slot. -/
def evaluateHand (cards : List (Option Card)) : HandEvaluation :=
  if cards.length == 3 && !cards.any (fun c => c.isNone) then
    evalThreeCards (cards.filterMap id)
  else invalidHandEvaluation

/-! ## Comparison, points and validation (game-logic module) -/

/-- Source `getHandPoints` — points awarded for winning a layer with a given
hand type: trips (pure or wild) 5; JQK straights and three face cards 3;
sum modulo 1 (3 with the same-suit flag).  The `default` switch branch of the source
is unreachable for the total enum. -/
def getHandPoints (hand : HandEvaluation) : Nat :=
  match hand.type with
  | .THREE_OF_KIND_PURE | .THREE_OF_KIND_WILD => 5
  | .STRAIGHT_FLUSH_JQK | .STRAIGHT_JQK | .THREE_FACE_CARDS => 3
  | .SUM_MODULO => if hand.isSameSuit then 3 else 1

/-- Source `compareHands` — 1 if hand1 wins, -1 if hand2 wins, 0 for a tie. -/
def compareHands (hand1 hand2 : HandEvaluation) : Int :=
  if hand1.type ≠ hand2.type then
    if hand1.type.num < hand2.type.num then 1 else -1
  else if hand1.type = HandType.STRAIGHT_FLUSH_JQK ∨ hand1.type = HandType.STRAIGHT_JQK then
    0
  else if hand1.type = HandType.THREE_OF_KIND_PURE ∨ hand1.type = HandType.THREE_OF_KIND_WILD
      ∨ hand1.type = HandType.THREE_FACE_CARDS then
    if hand1.value > hand2.value then 1
    else if hand1.value < hand2.value then -1
    else 0
  else
    if hand1.value > hand2.value then 1
    else if hand1.value < hand2.value then -1
    else 0

/-- The placed cards of a layer (`cards.filter(c => c !== null)`). -/
def placedCards (l : Layer) : List Card :=
  l.cards.filterMap id

/-- Evaluation of the placed cards of a layer, as done at every call site
(`evaluateHand(layerCards)` on the already-filtered card array). -/
def layerEval (l : Layer) : HandEvaluation :=
  evaluateHand ((placedCards l).map some)

/-- Source `validateArrangement` — layers must be complete and in order
top ≤ middle ≤ bottom. -/
def validateArrangement (arrangement : PlayerArrangement) : Bool :=
  let topCards := placedCards arrangement.top
  let middleCards := placedCards arrangement.middle
  let bottomCards := placedCards arrangement.bottom
  if topCards.length ≠ 3 ∨ middleCards.length ≠ 3 ∨ bottomCards.length ≠ 3 then false
  else
    let topEval := evaluateHand (topCards.map some)
    let middleEval := evaluateHand (middleCards.map some)
    let bottomEval := evaluateHand (bottomCards.map some)
    if compareHands topEval middleEval > 0 then false
    else if compareHands middleEval bottomEval > 0 then false
    else true

/-! ## Special hands (game-logic module) -/

def createEmptyArrangement : PlayerArrangement :=
  ⟨⟨[none, none, none]⟩, ⟨[none, none, none]⟩, ⟨[none, none, none]⟩⟩

def getCardsFromArrangement (arrangement : PlayerArrangement) : List Card :=
  (arrangement.top.cards ++ arrangement.middle.cards ++ arrangement.bottom.cards).filterMap id

/-- One layer of the `checkAllNines` loop: 3 placed wildcard-free cards
evaluating to sum-modulo with value at least 9. -/
def layerAllNines (layer : Layer) : Bool :=
  let cards := placedCards layer
  if cards.length ≠ 3 then false
  else if cards.any (fun c => c.isWild) then false
  else
    let e := evaluateHand (cards.map some)
    if e.type ≠ HandType.SUM_MODULO ∨ e.value < 9 then false
    else true

/-- Source `checkAllNines` — all 3 layers have sum 9 without wildcards (the
early-return loop of the source becomes `List.all`). -/
def checkAllNines (player : Player) : Bool :=
  match player.arrangement with
  | none => false
  | some arrangement => [arrangement.top, arrangement.middle, arrangement.bottom].all layerAllNines

/-- Number of cards of rank `r` in `cards`. -/
def countRank (cards : List Card) (r : Rank) : Nat :=
  (cards.filter (fun c => c.rank == r)).length

/-- Source `checkFourOfAKind` — some rank occurs at least 4 times among the
non-wild placed cards.  The source tallies counts in a record keyed by
rank and tests whether some count reaches 4; equivalently, the rank of
some non-wild card occurs at least 4 times among the non-wild cards. -/
def checkFourOfAKind (player : Player) : Bool :=
  match player.arrangement with
  | none => false
  | some arrangement =>
    let nonWild := (getCardsFromArrangement arrangement).filter (fun c => !c.isWild)
    nonWild.any (fun c => decide (4 ≤ countRank nonWild c.rank))

/-- Source `hasSpecialHand` — 4 of a kind OR all nines without wildcards. -/
def hasSpecialHand (player : Player) : Bool :=
  checkAllNines player || checkFourOfAKind player

/-! ## Matchup scoring (game-logic module) -/

/-- Foul determination of `compareArrangements`: arrangement missing or
invalid. -/
def arrangementFoul (player : Player) : Bool :=
  match player.arrangement with
  | some arrangement => !validateArrangement arrangement
  | none => true

/-- One iteration of the layer loop of `compareArrangements`: compare the
layer evaluations of the two players, record the comparison, and credit
the winner with the points of the winning hand. -/
def matchupStep (id1 id2 : String) (name : String) (l1 l2 : Layer)
    (acc : MatchupResult) : MatchupResult :=
  let p1Eval := layerEval l1
  let p2Eval := layerEval l2
  let comparison := compareHands p1Eval p2Eval
  let winningEval : Option HandEvaluation :=
    if comparison > 0 then some p1Eval else if comparison < 0 then some p2Eval else none
  let pointsAwarded : Nat :=
    match winningEval with
    | some e => getHandPoints e
    | none => 0
  let layerResult : LayerComparison :=
    ⟨name, p1Eval.value, p2Eval.value,
      if comparison > 0 then some id1 else if comparison < 0 then some id2 else none⟩
  let acc' := { acc with layerComparisons := acc.layerComparisons ++ [layerResult] }
  if comparison > 0 then
    { acc' with player1TotalPoints := acc'.player1TotalPoints + pointsAwarded }
  else if comparison < 0 then
    { acc' with player2TotalPoints := acc'.player2TotalPoints + pointsAwarded }
  else acc'

/-- Source `compareArrangements` — compare the arrangements of two players, applying
foul and special-hand overrides, then the three-layer comparison loop
(unrolled over top, middle, bottom). -/
def compareArrangements (player1 player2 : Player) : MatchupResult :=
  let player1Foul := arrangementFoul player1
  let player2Foul := arrangementFoul player2
  let base : MatchupResult :=
    ⟨player1.id, player2.id, [], 0, 0, player1Foul, player2Foul⟩
  let p1SpecialHand := !player1Foul && hasSpecialHand player1
  let p2SpecialHand := !player2Foul && hasSpecialHand player2
  if p1SpecialHand && p2SpecialHand then base
  else if p1SpecialHand then { base with player1TotalPoints := 10 }
  else if p2SpecialHand then { base with player2TotalPoints := 10 }
  else if player1Foul && player2Foul then base
  else if player1Foul then { base with player2TotalPoints := 10 }
  else if player2Foul then { base with player1TotalPoints := 10 }
  else
    let a1 := player1.arrangement.getD createEmptyArrangement
    let a2 := player2.arrangement.getD createEmptyArrangement
    matchupStep player1.id player2.id ("bottom") a1.bottom a2.bottom
      (matchupStep player1.id player2.id ("middle") a1.middle a2.middle
        (matchupStep player1.id player2.id ("top") a1.top a2.top base))

/-! ## Round scoring (game-logic module) -/

/-- JS object assignment `m[k] = v` on an association list: replace the
value in place if the key exists, else append. -/
def setKey (m : List (String × Int)) (k : String) (v : Int) : List (String × Int) :=
  match m with
  | [] => [(k, v)]
  | (k', v') :: rest => if k' = k then (k, v) :: rest else (k', v') :: setKey rest k v

/-- JS object read `m[k]`. -/
def getKey (m : List (String × Int)) (k : String) : Option Int :=
  match m with
  | [] => none
  | (k', v) :: rest => if k' = k then some v else getKey rest k

/-- The mutation of the first score entry with the given player id:
`entry.pointsAgainst[oppId] = net; entry.totalPoints += net`. -/
def addPoints (scores : List RoundScore) (pid oppId : String) (net : Int) :
    List RoundScore :=
  match scores with
  | [] => []
  | s :: rest =>
    if s.playerId = pid then
      { s with pointsAgainst := setKey s.pointsAgainst oppId net,
               totalPoints := s.totalPoints + net } :: rest
    else s :: addPoints rest pid oppId net

def dummyPlayer : Player := ⟨"", "", false, none⟩

/-- The unordered index pairs (i, j), i < j, in the nested-loop order of
`calculateRoundScores`. -/
def pairIndices (n : Nat) : List (Nat × Nat) :=
  (List.range n).flatMap (fun i =>
    ((List.range n).filter (fun j => decide (i < j))).map (fun j => (i, j)))

/-- One pair iteration of `calculateRoundScores`. -/
def roundPairStep (activePlayers : List Player) (scores : List RoundScore)
    (p : Nat × Nat) : List RoundScore :=
  let result := compareArrangements (activePlayers.getD p.1 dummyPlayer)
      (activePlayers.getD p.2 dummyPlayer)
  let p1Net : Int := (result.player1TotalPoints : Int) - (result.player2TotalPoints : Int)
  let scores' := addPoints scores result.player1Id result.player2Id p1Net
  addPoints scores' result.player2Id result.player1Id (-p1Net)

/-- Source `calculateRoundScores` — run every unordered pair of active players
through `compareArrangements`, ledger the net points both ways, then set
cash deltas 1:1. -/
def calculateRoundScores (players : List Player) : List RoundScore :=
  let activePlayers := players.filter (fun p => !p.isBankrupt)
  let scores : List RoundScore :=
    activePlayers.map (fun p => ⟨p.id, p.name, [], 0, 0⟩)
  let scores' := (pairIndices activePlayers.length).foldl (roundPairStep activePlayers) scores
  scores'.map (fun s => { s with cashChange := s.totalPoints })

/-! ## AI search (src/lib/ai.ts) -/

def dummyCard : Card := ⟨"", Suit.wild, Rank.WILD, true⟩

/-- Source `isAllNinesArrangement` — the arrangement-level twin of
`checkAllNines` used by the AI. -/
def isAllNinesArrangement (arrangement : PlayerArrangement) : Bool :=
  [arrangement.top, arrangement.middle, arrangement.bottom].all layerAllNines

/-- Source `hasFourOfAKindArrangement` — arrangement-level four of a kind. -/
def hasFourOfAKindArrangement (arrangement : PlayerArrangement) : Bool :=
  let nonWild := (getCardsFromArrangement arrangement).filter (fun c => !c.isWild)
  nonWild.any (fun c => decide (4 ≤ countRank nonWild c.rank))

def hasSpecialHandArrangement (arrangement : PlayerArrangement) : Bool :=
  isAllNinesArrangement arrangement || hasFourOfAKindArrangement arrangement

/-- The per-layer heuristic of the AI `scoreArrangement`:
`(7 - type) * 100 + value`. -/
def layerHeurScore (l : Layer) : Nat :=
  (7 - (layerEval l).type.num) * 100 + (layerEval l).value

/-- Source `scoreArrangement` (ai.ts) — `none` models the `-Infinity` score of
incomplete or invalid arrangements; a special hand scores 10000 flat;
otherwise the sum of the per-layer heuristics. -/
def scoreArrangement (arrangement : PlayerArrangement) : Option Nat :=
  if (placedCards arrangement.top).length ≠ 3 ∨ (placedCards arrangement.middle).length ≠ 3
      ∨ (placedCards arrangement.bottom).length ≠ 3 then none
  else if !validateArrangement arrangement then none
  else if hasSpecialHandArrangement arrangement then some 10000
  else
    some (layerHeurScore arrangement.top + layerHeurScore arrangement.middle
      + layerHeurScore arrangement.bottom)

/-- Strict `>` on scores with `-Infinity` (`none`) at the bottom. -/
def optGT (x y : Option Nat) : Bool :=
  match x, y with
  | some a, some b => decide (b < a)
  | some _, none => true
  | none, _ => false

/-- The list `[lo, lo+1, ..., hi-1]`, the index range of a `for` loop. -/
def rangeFrom (lo hi : Nat) : List Nat :=
  (List.range (hi - lo)).map (fun k => lo + k)

/-- The candidate arrangements enumerated by the nested loops of
`findBestArrangement`: choose 3 indices for the bottom, 3 of the
remaining 6 for the middle, the rest is the top. -/
def candidateArrangements (cards : List Card) : List PlayerArrangement :=
  let indices : List Nat := [0, 1, 2, 3, 4, 5, 6, 7, 8]
  (rangeFrom 0 7).flatMap (fun b1 =>
    (rangeFrom (b1 + 1) 8).flatMap (fun b2 =>
      (rangeFrom (b2 + 1) 9).flatMap (fun b3 =>
        let bottomIndices := [b1, b2, b3]
        let remaining1 := indices.filter (fun i => !(bottomIndices.contains i))
        (rangeFrom 0 4).flatMap (fun m1 =>
          (rangeFrom (m1 + 1) 5).flatMap (fun m2 =>
            (rangeFrom (m2 + 1) 6).map (fun m3 =>
              let middleIndices :=
                [remaining1.getD m1 0, remaining1.getD m2 0, remaining1.getD m3 0]
              let topIndices := remaining1.filter (fun i => !(middleIndices.contains i))
              { top := ⟨topIndices.map (fun i => some (cards.getD i dummyCard))⟩,
                middle := ⟨middleIndices.map (fun i => some (cards.getD i dummyCard))⟩,
                bottom := ⟨bottomIndices.map (fun i => some (cards.getD i dummyCard))⟩
                : PlayerArrangement }))))))

/-- The best-tracking loop of `findBestArrangement`: keep the first
candidate whose score strictly exceeds the best so far. -/
def findBestLoop : List PlayerArrangement → Option PlayerArrangement → Option Nat →
    Option PlayerArrangement × Option Nat
  | [], best, bestScore => (best, bestScore)
  | a :: rest, best, bestScore =>
    if optGT (scoreArrangement a) bestScore then
      findBestLoop rest (some a) (scoreArrangement a)
    else
      findBestLoop rest best bestScore

/-- Source `getCardSortValue` (ai.ts). -/
def getCardSortValue (card : Card) : Nat :=
  if card.isWild then 15
  else
    match card.rank with
    | .r2 => 2 | .r3 => 3 | .r4 => 4 | .r5 => 5 | .r6 => 6
    | .r7 => 7 | .r8 => 8 | .r9 => 9 | .r10 => 10
    | .J => 11 | .Q => 12 | .K => 13 | .A => 14
    | .WILD => 0

/-- The relation `comparator(a, b) <= 0` for the stable descending sort of
`createSimpleArrangement` (wildcards last, then by sort value). -/
def simpleSortLE (a b : Card) : Bool :=
  if a.isWild && !b.isWild then false
  else if !a.isWild && b.isWild then true
  else if a.isWild && b.isWild then true
  else decide (getCardSortValue b ≤ getCardSortValue a)

/-- Source `createSimpleArrangement` — fallback arrangement built by a stable
sort (strongest three at the bottom), its reverse, or a raw positional
split. -/
def createSimpleArrangement (cards : List Card) : PlayerArrangement :=
  let sorted := cards.mergeSort simpleSortLE
  let g := fun (i : Nat) => some (sorted.getD i dummyCard)
  let arrangement : PlayerArrangement :=
    { bottom := ⟨[g 0, g 1, g 2]⟩, middle := ⟨[g 3, g 4, g 5]⟩, top := ⟨[g 6, g 7, g 8]⟩ }
  if validateArrangement arrangement then arrangement
  else
    let reversed : PlayerArrangement :=
      { top := ⟨[g 0, g 1, g 2]⟩, middle := ⟨[g 3, g 4, g 5]⟩, bottom := ⟨[g 6, g 7, g 8]⟩ }
    if validateArrangement reversed then reversed
    else
      let h := fun (i : Nat) => some (cards.getD i dummyCard)
      { top := ⟨[h 0, h 1, h 2]⟩, middle := ⟨[h 3, h 4, h 5]⟩, bottom := ⟨[h 6, h 7, h 8]⟩ }

/-- Source `findBestArrangement` (ai.ts) — brute-force search over all 1680
labeled partitions, with the simple-arrangement fallback when no
candidate scored above `-Infinity`. -/
def findBestArrangement (cards : List Card) : PlayerArrangement :=
  if cards.length ≠ 9 then createEmptyArrangement
  else
    match findBestLoop (candidateArrangements cards) none none with
    | (some best, some _) => best
    | (some _, none) => createSimpleArrangement cards
    | (none, _) => createSimpleArrangement cards

/-- The score the AI obtains after tentatively discarding the card at
index `i`: `scoreArrangement(findBestArrangement(remaining))`. -/
def discardScore (cards : List Card) (i : Nat) : Option Nat :=
  scoreArrangement (findBestArrangement (cards.take i ++ cards.drop (i + 1)))

/-- The best-tracking loop of `chooseCardToDiscard` (returns the chosen
card together with the tracked best score). -/
def chooseLoop (cards : List Card) : List Nat → Card → Option Nat → Card × Option Nat
  | [], bestCardToRemove, bestScore => (bestCardToRemove, bestScore)
  | i :: rest, bestCardToRemove, bestScore =>
    if optGT (discardScore cards i) bestScore then
      chooseLoop cards rest (cards.getD i dummyCard) (discardScore cards i)
    else
      chooseLoop cards rest bestCardToRemove bestScore

/-- Source `chooseCardToDiscard` (ai.ts) — try removing each card; keep the one
whose removal leaves the best-scoring 9-card arrangement. -/
def chooseCardToDiscard (cards : List Card) : Card :=
  if cards.length ≠ 10 then cards.getD 0 dummyCard
  else (chooseLoop cards (List.range cards.length) (cards.getD 0 dummyCard) none).1

/-! ## Basic lemmas -/

theorem layerEval_def (l : Layer) :
    layerEval l = evaluateHand ((placedCards l).map some) := rfl

/-- Layer validity unfolding: complete layers in non-decreasing order. -/
theorem validateArrangement_eq_true_iff (a : PlayerArrangement) :
    validateArrangement a = true ↔
      ((placedCards a.top).length = 3 ∧ (placedCards a.middle).length = 3
        ∧ (placedCards a.bottom).length = 3
        ∧ ¬(compareHands (layerEval a.top) (layerEval a.middle) > 0)
        ∧ ¬(compareHands (layerEval a.middle) (layerEval a.bottom) > 0)) := by
  unfold validateArrangement
  dsimp only
  rw [layerEval_def, layerEval_def, layerEval_def]
  split_ifs with h1 h2 h3 <;> simp <;> try tauto
  all_goals omega

/-! ## C10 — malformed input to `evaluateHand` -/

/-- C10: for every input whose length is not exactly 3 or that contains an
empty slot, `evaluateHand` returns the sentinel invalid evaluation: the
weakest category (SumModulo) with tie-break value 0. -/
theorem evaluateHand_malformed_sentinel (cards : List (Option Card))
    (h : cards.length ≠ 3 ∨ none ∈ cards) :
    evaluateHand cards = ⟨HandType.SUM_MODULO, 0, false⟩ := by
  unfold evaluateHand
  rcases h with h | h
  · simp [h, invalidHandEvaluation]
  · have ha : cards.any (fun c => c.isNone) = true :=
      List.any_eq_true.mpr ⟨none, h, rfl⟩
    simp [ha, invalidHandEvaluation]

theorem evaluateHand_malformed_sentinel_witness :
    (([] : List (Option Card)).length ≠ 3 ∨ none ∈ ([] : List (Option Card)))
      ∧ evaluateHand [] = ⟨HandType.SUM_MODULO, 0, false⟩ :=
  ⟨Or.inl (by decide), evaluateHand_malformed_sentinel [] (Or.inl (by decide))⟩

/-! ## C7 — forced ties for the JQK straight categories -/

/-- C7: two evaluations of category StraightFlushJQK (and likewise
StraightJQK) always compare as a tie, regardless of tie-break values or
how the hands were constructed. -/
theorem compareHands_jqk_forced_tie (h1 h2 : HandEvaluation)
    (ht : h1.type = h2.type)
    (hj : h1.type = HandType.STRAIGHT_FLUSH_JQK ∨ h1.type = HandType.STRAIGHT_JQK) :
    compareHands h1 h2 = 0 := by
  unfold compareHands
  rw [if_neg (fun hne => hne ht), if_pos hj]

def sfNatural : HandEvaluation :=
  evaluateHand [some ⟨"J-spades", Suit.spades, Rank.J, false⟩,
    some ⟨"Q-spades", Suit.spades, Rank.Q, false⟩,
    some ⟨"K-spades", Suit.spades, Rank.K, false⟩]

def sfWildBuilt : HandEvaluation :=
  evaluateHand [some ⟨"wild-1", Suit.wild, Rank.WILD, true⟩,
    some ⟨"Q-diamonds", Suit.diamonds, Rank.Q, false⟩,
    some ⟨"K-diamonds", Suit.diamonds, Rank.K, false⟩]

theorem compareHands_jqk_forced_tie_witness :
    (sfNatural.type = sfWildBuilt.type
      ∧ sfNatural.type = HandType.STRAIGHT_FLUSH_JQK
      ∧ sfNatural.value ≠ sfWildBuilt.value → True)
    ∧ sfNatural.type = sfWildBuilt.type
    ∧ compareHands sfNatural sfWildBuilt = 0 :=
  ⟨fun _ => trivial, by decide,
    compareHands_jqk_forced_tie sfNatural sfWildBuilt (by decide) (Or.inl (by decide))⟩

/-! ## C8 — characterization of `validateArrangement` -/

/-- C8: for 3-slot layers, `validateArrangement` returns false whenever a
layer has fewer than 3 placed cards, and otherwise returns false exactly
when the top layer strictly beats the middle or the middle strictly beats
the bottom under `compareHands` (so stacked equal-strength layers are
accepted). -/
theorem validateArrangement_characterization (arrangement : PlayerArrangement)
    (h3 : arrangement.top.cards.length = 3 ∧ arrangement.middle.cards.length = 3
      ∧ arrangement.bottom.cards.length = 3) :
    validateArrangement arrangement = true ↔
      (¬((placedCards arrangement.top).length < 3
          ∨ (placedCards arrangement.middle).length < 3
          ∨ (placedCards arrangement.bottom).length < 3)
        ∧ ¬(compareHands (layerEval arrangement.top) (layerEval arrangement.middle) > 0)
        ∧ ¬(compareHands (layerEval arrangement.middle) (layerEval arrangement.bottom) > 0)) := by
  have ht : (placedCards arrangement.top).length ≤ 3 := by
    show (arrangement.top.cards.filterMap id).length ≤ 3
    have := List.length_filterMap_le id arrangement.top.cards
    omega
  have hm : (placedCards arrangement.middle).length ≤ 3 := by
    show (arrangement.middle.cards.filterMap id).length ≤ 3
    have := List.length_filterMap_le id arrangement.middle.cards
    omega
  have hb : (placedCards arrangement.bottom).length ≤ 3 := by
    show (arrangement.bottom.cards.filterMap id).length ≤ 3
    have := List.length_filterMap_le id arrangement.bottom.cards
    omega
  rw [validateArrangement_eq_true_iff]
  constructor
  · rintro ⟨e1, e2, e3, c1, c2⟩
    exact ⟨by omega, c1, c2⟩
  · rintro ⟨hlen, c1, c2⟩
    exact ⟨by omega, by omega, by omega, c1, c2⟩

def tieArrangement : PlayerArrangement :=
  ⟨⟨[some ⟨"2-hearts", Suit.hearts, Rank.r2, false⟩,
     some ⟨"3-hearts", Suit.hearts, Rank.r3, false⟩,
     some ⟨"4-hearts", Suit.hearts, Rank.r4, false⟩]⟩,
   ⟨[some ⟨"2-diamonds", Suit.diamonds, Rank.r2, false⟩,
     some ⟨"3-diamonds", Suit.diamonds, Rank.r3, false⟩,
     some ⟨"4-diamonds", Suit.diamonds, Rank.r4, false⟩]⟩,
   ⟨[some ⟨"2-clubs", Suit.clubs, Rank.r2, false⟩,
     some ⟨"3-clubs", Suit.clubs, Rank.r3, false⟩,
     some ⟨"4-clubs", Suit.clubs, Rank.r4, false⟩]⟩⟩

theorem validateArrangement_characterization_witness :
    (tieArrangement.top.cards.length = 3 ∧ tieArrangement.middle.cards.length = 3
      ∧ tieArrangement.bottom.cards.length = 3)
    ∧ compareHands (layerEval tieArrangement.top) (layerEval tieArrangement.middle) = 0
    ∧ validateArrangement tieArrangement = true :=
  ⟨by decide, by decide,
    (validateArrangement_characterization tieArrangement (by decide)).mpr (by decide)⟩

/-! ## C3 — wildcard forces sum-modulo value 9 -/

/-- C3: a 3-card input that evaluates to SumModulo and contains a
wildcard gets tie-break value exactly 9, while the same-suit flag is
still computed by `isSameSuit` from the non-wild cards. -/
theorem sum_modulo_wildcard_forces_nine (a b c : Card)
    (ht : (evaluateHand [some a, some b, some c]).type = HandType.SUM_MODULO)
    (hw : (a.isWild || b.isWild || c.isWild) = true) :
    (evaluateHand [some a, some b, some c]).value = 9
      ∧ (evaluateHand [some a, some b, some c]).isSameSuit = isSameSuit [a, b, c] := by
  have he : evaluateHand [some a, some b, some c] = evalThreeCards [a, b, c] := by
    simp [evaluateHand]
  rw [he] at ht ⊢
  unfold evalThreeCards at ht ⊢
  dsimp only at ht ⊢
  split_ifs at ht ⊢ with hh1 hh2 hh3 hh4 hh5 hh6
  · exact ⟨rfl, rfl⟩
  · exfalso
    simp only [List.any_cons, List.any_nil, Bool.or_false] at hh6
    simp only [Bool.or_eq_true] at hw hh6
    tauto

def wildFix : Card := ⟨"wild-1", Suit.wild, Rank.WILD, true⟩
def twoHearts : Card := ⟨"2-hearts", Suit.hearts, Rank.r2, false⟩
def threeDiamonds : Card := ⟨"3-diamonds", Suit.diamonds, Rank.r3, false⟩

theorem sum_modulo_wildcard_forces_nine_witness :
    (evaluateHand [some wildFix, some twoHearts, some threeDiamonds]).type
        = HandType.SUM_MODULO
      ∧ (wildFix.isWild || twoHearts.isWild || threeDiamonds.isWild) = true
      ∧ (evaluateHand [some wildFix, some twoHearts, some threeDiamonds]).value = 9
      ∧ (evaluateHand [some wildFix, some twoHearts, some threeDiamonds]).isSameSuit
          = isSameSuit [wildFix, twoHearts, threeDiamonds] :=
  ⟨by decide, by decide,
    (sum_modulo_wildcard_forces_nine wildFix twoHearts threeDiamonds (by decide) (by decide)).1,
    (sum_modulo_wildcard_forces_nine wildFix twoHearts threeDiamonds (by decide) (by decide)).2⟩

/-! ## C2 — special hands override the matchup -/

/-- C2: a special hand (all-nines OR four-of-a-kind, holder not fouling)
beats everything: if exactly one side has one, that side gets 10 points
flat and the opponent 0 (even against a foul); if both have one, the
matchup is a draw with both totals 0. -/
theorem matchup_special_hand_override (p1 p2 : Player) :
    ((!arrangementFoul p1 && hasSpecialHand p1) = true →
        (!arrangementFoul p2 && hasSpecialHand p2) = false →
        (compareArrangements p1 p2).player1TotalPoints = 10
          ∧ (compareArrangements p1 p2).player2TotalPoints = 0)
    ∧ ((!arrangementFoul p2 && hasSpecialHand p2) = true →
        (!arrangementFoul p1 && hasSpecialHand p1) = false →
        (compareArrangements p1 p2).player2TotalPoints = 10
          ∧ (compareArrangements p1 p2).player1TotalPoints = 0)
    ∧ ((!arrangementFoul p1 && hasSpecialHand p1) = true →
        (!arrangementFoul p2 && hasSpecialHand p2) = true →
        (compareArrangements p1 p2).player1TotalPoints = 0
          ∧ (compareArrangements p1 p2).player2TotalPoints = 0) := by
  refine ⟨fun hs1 hs2 => ?_, fun hs2 hs1 => ?_, fun hs1 hs2 => ?_⟩ <;>
    · unfold compareArrangements
      dsimp only
      simp [hs1, hs2]

def specialArrangement : PlayerArrangement :=
  ⟨⟨[some ⟨"7-spades", Suit.spades, Rank.r7, false⟩,
     some ⟨"A-hearts", Suit.hearts, Rank.A, false⟩,
     some ⟨"A-diamonds", Suit.diamonds, Rank.A, false⟩]⟩,
   ⟨[some ⟨"8-hearts", Suit.hearts, Rank.r8, false⟩,
     some ⟨"9-hearts", Suit.hearts, Rank.r9, false⟩,
     some ⟨"2-hearts", Suit.hearts, Rank.r2, false⟩]⟩,
   ⟨[some ⟨"7-hearts", Suit.hearts, Rank.r7, false⟩,
     some ⟨"7-diamonds", Suit.diamonds, Rank.r7, false⟩,
     some ⟨"7-clubs", Suit.clubs, Rank.r7, false⟩]⟩⟩

def specialPlayer : Player := ⟨"p1", "Alice", false, some specialArrangement⟩

def noArrangementPlayer : Player := ⟨"p2", "Bob", false, none⟩

theorem matchup_special_hand_override_witness :
    (!arrangementFoul specialPlayer && hasSpecialHand specialPlayer) = true
      ∧ (!arrangementFoul noArrangementPlayer && hasSpecialHand noArrangementPlayer) = false
      ∧ arrangementFoul noArrangementPlayer = true
      ∧ (compareArrangements specialPlayer noArrangementPlayer).player1TotalPoints = 10
      ∧ (compareArrangements specialPlayer noArrangementPlayer).player2TotalPoints = 0 :=
  ⟨by decide, by decide, by decide,
    ((matchup_special_hand_override specialPlayer noArrangementPlayer).1
      (by decide) (by decide)).1,
    ((matchup_special_hand_override specialPlayer noArrangementPlayer).1
      (by decide) (by decide)).2⟩

/-! ## C6 — the all-nines special hand -/

/-- A sum-modulo evaluation never carries a tie-break above 9. -/
theorem evaluateHand_sum_value_le (cs : List (Option Card))
    (ht : (evaluateHand cs).type = HandType.SUM_MODULO) :
    (evaluateHand cs).value ≤ 9 := by
  unfold evaluateHand at ht ⊢
  split_ifs at ht ⊢ with hg
  · unfold evalThreeCards at ht ⊢
    dsimp only at ht ⊢
    split_ifs at ht ⊢ with h1 h2 h3 h4 h5 h6
    · exact Nat.le_refl 9
    · show getSumModulo (cs.filterMap id) ≤ 9
      unfold getSumModulo
      have := Nat.mod_lt ((cs.filterMap id).foldl
        (fun acc c => if c.isWild then acc else acc + getRankValue c.rank) 0)
        (show 0 < 10 by norm_num)
      omega
  · show (invalidHandEvaluation).value ≤ 9
    simp [invalidHandEvaluation]

/-- Per-layer unfolding of the all-nines check. -/
theorem layerAllNines_iff (l : Layer) :
    layerAllNines l = true ↔
      ((placedCards l).length = 3
        ∧ (placedCards l).all (fun card => !card.isWild) = true
        ∧ (layerEval l).type = HandType.SUM_MODULO
        ∧ (layerEval l).value = 9) := by
  unfold layerAllNines
  dsimp only
  rw [← layerEval_def]
  split_ifs with h1 h2 h3
  · simp only [Bool.false_eq_true, false_iff]
    rintro ⟨hlen, -, -, -⟩
    exact h1 hlen
  · simp only [Bool.false_eq_true, false_iff]
    rintro ⟨-, hall, -, -⟩
    rcases List.any_eq_true.mp h2 with ⟨card, hmem, hcw⟩
    have hx := List.all_eq_true.mp hall card hmem
    simp only [Bool.not_eq_true'] at hx
    rw [hx] at hcw
    simp at hcw
  · simp only [Bool.false_eq_true, false_iff]
    rintro ⟨-, -, hty, hv9⟩
    rcases h3 with h | h
    · exact h hty
    · omega
  · push_neg at h3
    constructor
    · intro _
      have hle : (layerEval l).value ≤ 9 := evaluateHand_sum_value_le _ h3.1
      refine ⟨by omega, ?_, h3.1, by omega⟩
      rw [List.all_eq_true]
      intro card hmem
      simp only [Bool.not_eq_true']
      by_contra hcw
      apply h2
      apply List.any_eq_true.mpr
      exact ⟨card, hmem, by simpa using hcw⟩
    · intro _
      rfl

/-- C6: the all-nines special hand holds exactly when every layer has 3
placed wildcard-free cards evaluating to SumModulo with tie-break value
exactly 9; any wildcard among the placed cards disqualifies the bonus
(even though a wildcard layer itself evaluates to SumModulo value 9). -/
theorem checkAllNines_characterization (p : Player) (arr : PlayerArrangement)
    (h : p.arrangement = some arr) :
    (checkAllNines p = true ↔
      ∀ l ∈ [arr.top, arr.middle, arr.bottom],
        (placedCards l).length = 3
          ∧ (placedCards l).all (fun card => !card.isWild) = true
          ∧ (layerEval l).type = HandType.SUM_MODULO
          ∧ (layerEval l).value = 9)
    ∧ (((placedCards arr.top ++ placedCards arr.middle ++ placedCards arr.bottom).any
          (fun card => card.isWild)) = true → checkAllNines p = false) := by
  have hiff0 : checkAllNines p = true ↔
      ∀ l ∈ [arr.top, arr.middle, arr.bottom], layerAllNines l = true := by
    unfold checkAllNines
    rw [h]
    exact List.all_eq_true
  have hiff : checkAllNines p = true ↔
      ∀ l ∈ [arr.top, arr.middle, arr.bottom],
        (placedCards l).length = 3
          ∧ (placedCards l).all (fun card => !card.isWild) = true
          ∧ (layerEval l).type = HandType.SUM_MODULO
          ∧ (layerEval l).value = 9 := by
    refine hiff0.trans ⟨fun hh l hl => ?_, fun hh l hl => ?_⟩
    · exact (layerAllNines_iff l).mp (hh l hl)
    · exact (layerAllNines_iff l).mpr (hh l hl)
  refine ⟨hiff, fun hwild => ?_⟩
  cases hcn : checkAllNines p with
  | false => rfl
  | true =>
    exfalso
    have hall := hiff.mp hcn
    rcases List.any_eq_true.mp hwild with ⟨card, hmem, hcw⟩
    have contra : ∀ l ∈ [arr.top, arr.middle, arr.bottom],
        card ∈ placedCards l → False := by
      intro l hl hcl
      have hx := List.all_eq_true.mp (hall l hl).2.1 card hcl
      simp [hcw] at hx
    rcases List.mem_append.mp hmem with hmem2 | hmem3
    · rcases List.mem_append.mp hmem2 with hma | hmb
      · exact contra arr.top (by simp) hma
      · exact contra arr.middle (by simp) hmb
    · exact contra arr.bottom (by simp) hmem3

def allNinesArrangement : PlayerArrangement :=
  ⟨⟨[some ⟨"2-hearts", Suit.hearts, Rank.r2, false⟩,
     some ⟨"3-diamonds", Suit.diamonds, Rank.r3, false⟩,
     some ⟨"4-clubs", Suit.clubs, Rank.r4, false⟩]⟩,
   ⟨[some ⟨"A-hearts", Suit.hearts, Rank.A, false⟩,
     some ⟨"8-diamonds", Suit.diamonds, Rank.r8, false⟩,
     some ⟨"10-clubs", Suit.clubs, Rank.r10, false⟩]⟩,
   ⟨[some ⟨"5-hearts", Suit.hearts, Rank.r5, false⟩,
     some ⟨"6-diamonds", Suit.diamonds, Rank.r6, false⟩,
     some ⟨"8-clubs", Suit.clubs, Rank.r8, false⟩]⟩⟩

def allNinesPlayer : Player := ⟨"p9", "Nina", false, some allNinesArrangement⟩

theorem checkAllNines_characterization_witness :
    allNinesPlayer.arrangement = some allNinesArrangement
      ∧ checkAllNines allNinesPlayer = true :=
  ⟨rfl, (checkAllNines_characterization allNinesPlayer allNinesArrangement rfl).1.mpr
    (by decide)⟩

/-! ## C1 — category-based layer points in a normal matchup -/

/-- Modelled from the spec (its point table): the winner of a layer earns
points from the own category of the winning hand — trips (pure or wild) 5,
JQK straights and three face cards 3, sum-modulo 3 when the winning
same-suit flag of the winning evaluation is set and 1 otherwise. -/
def specLayerPoints (e : HandEvaluation) : Nat :=
  match e.type with
  | .THREE_OF_KIND_PURE | .THREE_OF_KIND_WILD => 5
  | .STRAIGHT_FLUSH_JQK | .STRAIGHT_JQK | .THREE_FACE_CARDS => 3
  | .SUM_MODULO => if e.isSameSuit then 3 else 1

/-- Points player 1 earns from one layer per the spec (0 unless it wins). -/
def specWinnerPoints1 (e1 e2 : HandEvaluation) : Nat :=
  if compareHands e1 e2 > 0 then specLayerPoints e1 else 0

/-- Points player 2 earns from one layer per the spec (0 unless it wins). -/
def specWinnerPoints2 (e1 e2 : HandEvaluation) : Nat :=
  if compareHands e1 e2 < 0 then specLayerPoints e2 else 0

theorem getHandPoints_eq_specLayerPoints (e : HandEvaluation) :
    getHandPoints e = specLayerPoints e := by
  cases e with
  | mk t v s => cases t <;> rfl

theorem matchupStep_points1 (id1 id2 nm : String) (l1 l2 : Layer) (acc : MatchupResult) :
    (matchupStep id1 id2 nm l1 l2 acc).player1TotalPoints
      = acc.player1TotalPoints + specWinnerPoints1 (layerEval l1) (layerEval l2) := by
  unfold matchupStep specWinnerPoints1
  dsimp only
  split_ifs with hc1 hc2 <;>
    simp [getHandPoints_eq_specLayerPoints] <;> omega

theorem matchupStep_points2 (id1 id2 nm : String) (l1 l2 : Layer) (acc : MatchupResult) :
    (matchupStep id1 id2 nm l1 l2 acc).player2TotalPoints
      = acc.player2TotalPoints + specWinnerPoints2 (layerEval l1) (layerEval l2) := by
  unfold matchupStep specWinnerPoints2
  dsimp only
  split_ifs with hc1 hc2 <;>
    simp [getHandPoints_eq_specLayerPoints] <;> omega

/-- C1: in a matchup where neither side fouls and neither has a special
hand, the total of each player is the sum over the three layers of the
points of the layers it wins, where a won layer pays the winning hand its
category points (5 for trips, 3 for JQK straights and face cards, 3/1
for sum-modulo by the same-suit flag) and a tied layer pays nobody. -/
theorem matchup_normal_layer_points (p1 p2 : Player) (a1 a2 : PlayerArrangement)
    (h1 : p1.arrangement = some a1) (hv1 : validateArrangement a1 = true)
    (hs1 : hasSpecialHand p1 = false)
    (h2 : p2.arrangement = some a2) (hv2 : validateArrangement a2 = true)
    (hs2 : hasSpecialHand p2 = false) :
    (compareArrangements p1 p2).player1TotalPoints
        = specWinnerPoints1 (layerEval a1.top) (layerEval a2.top)
          + specWinnerPoints1 (layerEval a1.middle) (layerEval a2.middle)
          + specWinnerPoints1 (layerEval a1.bottom) (layerEval a2.bottom)
      ∧ (compareArrangements p1 p2).player2TotalPoints
        = specWinnerPoints2 (layerEval a1.top) (layerEval a2.top)
          + specWinnerPoints2 (layerEval a1.middle) (layerEval a2.middle)
          + specWinnerPoints2 (layerEval a1.bottom) (layerEval a2.bottom) := by
  have hf1 : arrangementFoul p1 = false := by
    unfold arrangementFoul
    rw [h1]
    simp [hv1]
  have hf2 : arrangementFoul p2 = false := by
    unfold arrangementFoul
    rw [h2]
    simp [hv2]
  unfold compareArrangements
  dsimp only
  rw [hf1, hf2, hs1, hs2, h1, h2]
  simp only [Bool.not_false, Bool.and_false, Bool.true_and, Bool.and_self,
    if_neg (by simp : ¬(false && false) = true)]
  simp only [Bool.false_eq_true, if_false, Option.getD_some]
  constructor
  · simp only [matchupStep_points1]
    omega
  · simp only [matchupStep_points2]
    omega

def normalArr1 : PlayerArrangement :=
  ⟨⟨[some ⟨"2-hearts", Suit.hearts, Rank.r2, false⟩,
     some ⟨"3-diamonds", Suit.diamonds, Rank.r3, false⟩,
     some ⟨"4-clubs", Suit.clubs, Rank.r4, false⟩]⟩,
   ⟨[some ⟨"5-hearts", Suit.hearts, Rank.r5, false⟩,
     some ⟨"5-diamonds", Suit.diamonds, Rank.r5, false⟩,
     some ⟨"5-clubs", Suit.clubs, Rank.r5, false⟩]⟩,
   ⟨[some ⟨"K-hearts", Suit.hearts, Rank.K, false⟩,
     some ⟨"K-diamonds", Suit.diamonds, Rank.K, false⟩,
     some ⟨"K-clubs", Suit.clubs, Rank.K, false⟩]⟩⟩

def normalPlayer1 : Player := ⟨"n1", "Cara", false, some normalArr1⟩

def normalArr2 : PlayerArrangement :=
  ⟨⟨[some ⟨"2-spades", Suit.spades, Rank.r2, false⟩,
     some ⟨"3-spades", Suit.spades, Rank.r3, false⟩,
     some ⟨"4-spades", Suit.spades, Rank.r4, false⟩]⟩,
   ⟨[some ⟨"Q-hearts", Suit.hearts, Rank.Q, false⟩,
     some ⟨"Q-diamonds", Suit.diamonds, Rank.Q, false⟩,
     some ⟨"Q-clubs", Suit.clubs, Rank.Q, false⟩]⟩,
   ⟨[some ⟨"A-hearts", Suit.hearts, Rank.A, false⟩,
     some ⟨"A-diamonds", Suit.diamonds, Rank.A, false⟩,
     some ⟨"A-clubs", Suit.clubs, Rank.A, false⟩]⟩⟩

def normalPlayer2 : Player := ⟨"n2", "Dana", false, some normalArr2⟩

theorem matchup_normal_layer_points_witness :
    validateArrangement normalArr1 = true ∧ hasSpecialHand normalPlayer1 = false
      ∧ validateArrangement normalArr2 = true ∧ hasSpecialHand normalPlayer2 = false
      ∧ (compareArrangements normalPlayer1 normalPlayer2).player1TotalPoints
          = specWinnerPoints1 (layerEval normalArr1.top) (layerEval normalArr2.top)
            + specWinnerPoints1 (layerEval normalArr1.middle) (layerEval normalArr2.middle)
            + specWinnerPoints1 (layerEval normalArr1.bottom) (layerEval normalArr2.bottom)
      ∧ (compareArrangements normalPlayer1 normalPlayer2).player2TotalPoints
          = specWinnerPoints2 (layerEval normalArr1.top) (layerEval normalArr2.top)
            + specWinnerPoints2 (layerEval normalArr1.middle) (layerEval normalArr2.middle)
            + specWinnerPoints2 (layerEval normalArr1.bottom) (layerEval normalArr2.bottom) :=
  ⟨by decide, by decide, by decide, by decide,
    (matchup_normal_layer_points normalPlayer1 normalPlayer2 normalArr1 normalArr2
      rfl (by decide) (by decide) rfl (by decide) (by decide)).1,
    (matchup_normal_layer_points normalPlayer1 normalPlayer2 normalArr1 normalArr2
      rfl (by decide) (by decide) rfl (by decide) (by decide)).2⟩

/-! ## C4 — optimality of the AI search -/

theorem getComparisonRankValue_le (r : Rank) : getComparisonRankValue r ≤ 14 := by
  cases r <;> decide

theorem isThreeOfKind_rankValue_le (cs : List Card) :
    (isThreeOfKind cs).rankValue ≤ 14 := by
  unfold isThreeOfKind
  dsimp only
  split_ifs <;> try decide
  all_goals
    split <;>
      first
      | exact getComparisonRankValue_le _
      | decide
      | (split_ifs <;> first | exact getComparisonRankValue_le _ | decide)

theorem filterMap_id_length_of_no_none (l : List (Option Card))
    (h : l.any (fun c => c.isNone) = false) :
    (l.filterMap id).length = l.length := by
  induction l with
  | nil => rfl
  | cons a t ih =>
    simp only [List.any_cons, Bool.or_eq_false_iff] at h
    cases a with
    | none => simp at h
    | some x =>
      simp only [List.filterMap_cons, id, List.length_cons]
      rw [ih h.2]

theorem evalThreeCards_value_le (cs : List Card) (hlen : cs.length = 3) :
    (evalThreeCards cs).value ≤ 100 := by
  unfold evalThreeCards
  dsimp only
  split_ifs
  · exact le_trans (isThreeOfKind_rankValue_le cs) (by norm_num)
  · exact Nat.le_refl 100
  · exact Nat.le_refl 100
  · exact le_trans (isThreeOfKind_rankValue_le cs) (by norm_num)
  · rcases cs with _ | ⟨x, _ | ⟨y, _ | ⟨z, t⟩⟩⟩ <;> simp at hlen
    subst hlen
    simp only [List.foldl_cons, List.foldl_nil, Nat.zero_add]
    have hx := getComparisonRankValue_le x.rank
    have hy := getComparisonRankValue_le y.rank
    have hz := getComparisonRankValue_le z.rank
    omega
  · exact le_trans (Nat.le_refl 9) (by norm_num)
  · show getSumModulo cs ≤ 100
    unfold getSumModulo
    have := Nat.mod_lt (cs.foldl
      (fun acc c => if c.isWild then acc else acc + getRankValue c.rank) 0)
      (show 0 < 10 by norm_num)
    omega

theorem evaluateHand_value_le (cs : List (Option Card)) :
    (evaluateHand cs).value ≤ 100 := by
  unfold evaluateHand
  split_ifs with hg
  · simp only [Bool.and_eq_true, beq_iff_eq, Bool.not_eq_true'] at hg
    exact evalThreeCards_value_le _ (by rw [filterMap_id_length_of_no_none _ hg.2, hg.1])
  · show (invalidHandEvaluation).value ≤ 100
    simp [invalidHandEvaluation]

theorem handTypeNum_bounds (t : HandType) : 1 ≤ t.num ∧ t.num ≤ 6 := by
  cases t <;> decide

theorem layerHeurScore_le (l : Layer) : layerHeurScore l ≤ 700 := by
  unfold layerHeurScore
  have h1 := handTypeNum_bounds (layerEval l).type
  have h2 := evaluateHand_value_le ((placedCards l).map some)
  have h2' : (layerEval l).value ≤ 100 := h2
  have : (7 - (layerEval l).type.num) * 100 ≤ 600 := by
    have : 7 - (layerEval l).type.num ≤ 6 := by omega
    omega
  omega

/-- Order embedding of scores with `-Infinity`: `none ↦ 0`, `some n ↦ n + 1`. -/
def scoreVal : Option Nat → Nat
  | none => 0
  | some n => n + 1

theorem optGT_iff (x y : Option Nat) : optGT x y = true ↔ scoreVal y < scoreVal x := by
  cases x <;> cases y <;> simp [optGT, scoreVal] <;> omega

/-- Modelled from the spec: the search heuristic — a valid candidate with
a special hand scores the dominant constant 10000, otherwise the sum over
the three layers of (7 − categoryNumber) × 100 + tieBreakValue. -/
def specHeuristicScore (a : PlayerArrangement) : Nat :=
  if hasSpecialHandArrangement a then 10000
  else layerHeurScore a.top + layerHeurScore a.middle + layerHeurScore a.bottom

theorem scoreArrangement_valid (a : PlayerArrangement)
    (hv : validateArrangement a = true) :
    scoreArrangement a = some (specHeuristicScore a) := by
  have hl := (validateArrangement_eq_true_iff a).mp hv
  unfold scoreArrangement specHeuristicScore
  rw [if_neg (by simp [hl.1, hl.2.1, hl.2.2.1])]
  rw [if_neg (by simp [hv])]
  split_ifs <;> rfl

theorem scoreArrangement_invalid (a : PlayerArrangement)
    (hv : validateArrangement a = false) :
    scoreArrangement a = none := by
  unfold scoreArrangement
  split_ifs with hlen hval
  · rfl
  · rfl
  all_goals simp [hv] at hval

theorem findBestLoop_ge_init (cands : List PlayerArrangement)
    (best : Option PlayerArrangement) (s : Option Nat) :
    scoreVal s ≤ scoreVal (findBestLoop cands best s).2 := by
  induction cands generalizing best s with
  | nil => simp [findBestLoop]
  | cons a rest ih =>
    rw [findBestLoop]
    split_ifs with hgt
    · have h1 := ih (some a) (scoreArrangement a)
      have h2 := (optGT_iff (scoreArrangement a) s).mp hgt
      omega
    · exact ih best s

theorem findBestLoop_ge_mem (cands : List PlayerArrangement)
    (best : Option PlayerArrangement) (s : Option Nat) :
    ∀ a ∈ cands, scoreVal (scoreArrangement a) ≤ scoreVal (findBestLoop cands best s).2 := by
  induction cands generalizing best s with
  | nil => intro a ha; simp at ha
  | cons c rest ih =>
    intro a ha
    rw [findBestLoop]
    split_ifs with hgt
    · rcases List.mem_cons.mp ha with rfl | ha'
      · exact findBestLoop_ge_init rest (some a) (scoreArrangement a)
      · exact ih (some c) (scoreArrangement c) a ha'
    · rcases List.mem_cons.mp ha with rfl | ha'
      · have h1 : ¬ scoreVal s < scoreVal (scoreArrangement a) :=
          fun hc => hgt ((optGT_iff _ _).mpr hc)
        have h2 := findBestLoop_ge_init rest best s
        omega
      · exact ih best s a ha'

theorem findBestLoop_cases (cands : List PlayerArrangement)
    (best : Option PlayerArrangement) (s : Option Nat) :
    findBestLoop cands best s = (best, s)
      ∨ ∃ b ∈ cands, findBestLoop cands best s = (some b, scoreArrangement b) := by
  induction cands generalizing best s with
  | nil => left; rfl
  | cons c rest ih =>
    rw [findBestLoop]
    split_ifs with hgt
    · rcases ih (some c) (scoreArrangement c) with heq | ⟨b, hb, heq⟩
      · right; exact ⟨c, List.mem_cons_self c rest, heq⟩
      · right; exact ⟨b, List.mem_cons_of_mem c hb, heq⟩
    · rcases ih best s with heq | ⟨b, hb, heq⟩
      · left; exact heq
      · right; exact ⟨b, List.mem_cons_of_mem c hb, heq⟩

/-- C4: on a 9-card hand admitting a layer-order-valid candidate, the AI
search returns a valid candidate arrangement whose heuristic score — the
sum over layers of (7 − categoryNumber) × 100 + tieBreakValue, forced to
the dominant constant 10000 for a special hand — is maximal over all
candidate partitions; in particular a special-hand candidate is always
preferred over any ordinary-scoring arrangement. -/
theorem findBestArrangement_optimal (cards : List Card) (hlen : cards.length = 9)
    (hvalid : (candidateArrangements cards).any validateArrangement = true) :
    validateArrangement (findBestArrangement cards) = true
      ∧ findBestArrangement cards ∈ candidateArrangements cards
      ∧ (∀ a ∈ candidateArrangements cards, validateArrangement a = true →
          specHeuristicScore a ≤ specHeuristicScore (findBestArrangement cards))
      ∧ (∀ a ∈ candidateArrangements cards, validateArrangement a = true →
          hasSpecialHandArrangement a = true →
          hasSpecialHandArrangement (findBestArrangement cards) = true) := by
  obtain ⟨a0, ha0, hva0⟩ := List.any_eq_true.mp hvalid
  have hge0 := findBestLoop_ge_mem (candidateArrangements cards) none none a0 ha0
  rw [scoreArrangement_valid a0 hva0] at hge0
  have hpos : 0 < scoreVal (findBestLoop (candidateArrangements cards) none none).2 := by
    simp only [scoreVal] at hge0 ⊢
    omega
  rcases findBestLoop_cases (candidateArrangements cards) none none with heq | ⟨b, hb, heq⟩
  · rw [heq] at hpos
    simp [scoreVal] at hpos
  · have hL2 : (findBestLoop (candidateArrangements cards) none none).2
        = scoreArrangement b := by rw [heq]
    have hsome : scoreArrangement b ≠ none := by
      intro hn
      rw [hL2, hn] at hpos
      simp [scoreVal] at hpos
    have hvb : validateArrangement b = true := by
      by_contra hfb
      have hfb' : validateArrangement b = false := by
        revert hfb
        cases validateArrangement b <;> simp
      exact hsome (scoreArrangement_invalid b hfb')
    obtain ⟨s, hs⟩ : ∃ s, scoreArrangement b = some s := by
      cases hsb : scoreArrangement b with
      | none => exact absurd hsb hsome
      | some v => exact ⟨v, rfl⟩
    have hfb : findBestArrangement cards = b := by
      unfold findBestArrangement
      rw [if_neg (by omega : ¬cards.length ≠ 9), heq, hs]
    have hmax : ∀ a ∈ candidateArrangements cards, validateArrangement a = true →
        specHeuristicScore a ≤ specHeuristicScore (findBestArrangement cards) := by
      intro a ha hva
      have h1 := findBestLoop_ge_mem (candidateArrangements cards) none none a ha
      rw [scoreArrangement_valid a hva, hL2, scoreArrangement_valid b hvb] at h1
      simp only [scoreVal] at h1
      rw [hfb]
      omega
    refine ⟨hfb ▸ hvb, hfb ▸ hb, hmax, ?_⟩
    intro a ha hva hsp
    have hspec_a : specHeuristicScore a = 10000 := by
      unfold specHeuristicScore
      rw [if_pos hsp]
    have h10000 : 10000 ≤ specHeuristicScore (findBestArrangement cards) := by
      rw [← hspec_a]
      exact hmax a ha hva
    by_contra hnb
    have hnb' : hasSpecialHandArrangement (findBestArrangement cards) = false := by
      revert hnb
      cases hasSpecialHandArrangement (findBestArrangement cards) <;> simp
    have hsum : specHeuristicScore (findBestArrangement cards)
        = layerHeurScore (findBestArrangement cards).top
          + layerHeurScore (findBestArrangement cards).middle
          + layerHeurScore (findBestArrangement cards).bottom := by
      unfold specHeuristicScore
      rw [if_neg (by simp [hnb'])]
    have b1 := layerHeurScore_le (findBestArrangement cards).top
    have b2 := layerHeurScore_le (findBestArrangement cards).middle
    have b3 := layerHeurScore_le (findBestArrangement cards).bottom
    omega

def searchHand9 : List Card :=
  [⟨"K-hearts", Suit.hearts, Rank.K, false⟩,
   ⟨"K-diamonds", Suit.diamonds, Rank.K, false⟩,
   ⟨"K-clubs", Suit.clubs, Rank.K, false⟩,
   ⟨"Q-hearts", Suit.hearts, Rank.Q, false⟩,
   ⟨"Q-diamonds", Suit.diamonds, Rank.Q, false⟩,
   ⟨"Q-clubs", Suit.clubs, Rank.Q, false⟩,
   ⟨"J-hearts", Suit.hearts, Rank.J, false⟩,
   ⟨"J-diamonds", Suit.diamonds, Rank.J, false⟩,
   ⟨"J-clubs", Suit.clubs, Rank.J, false⟩]

theorem findBestArrangement_optimal_witness :
    searchHand9.length = 9
      ∧ (candidateArrangements searchHand9).any validateArrangement = true
      ∧ validateArrangement (findBestArrangement searchHand9) = true :=
  ⟨by decide, by decide,
    (findBestArrangement_optimal searchHand9 (by decide) (by decide)).1⟩

/-! ## C9 — optimality of the discard choice -/

theorem chooseLoop_go (cards : List Card) (is : List Nat)
    (hord : is.Pairwise (· < ·)) (bcard : Card) (bs : Option Nat) :
    (chooseLoop cards is bcard bs = (bcard, bs)
        ∧ ∀ j ∈ is, scoreVal (discardScore cards j) ≤ scoreVal bs)
      ∨ (∃ i ∈ is,
          chooseLoop cards is bcard bs = (cards.getD i dummyCard, discardScore cards i)
          ∧ scoreVal bs < scoreVal (discardScore cards i)
          ∧ (∀ j ∈ is, scoreVal (discardScore cards j) ≤ scoreVal (discardScore cards i))
          ∧ (∀ j ∈ is, j < i →
              scoreVal (discardScore cards j) < scoreVal (discardScore cards i))) := by
  induction is generalizing bcard bs with
  | nil => left; exact ⟨rfl, by simp⟩
  | cons a rest ih =>
    have hord' : rest.Pairwise (· < ·) := (List.pairwise_cons.mp hord).2
    have halt : ∀ j ∈ rest, a < j := (List.pairwise_cons.mp hord).1
    rw [chooseLoop]
    split_ifs with hgt
    · have hgt' := (optGT_iff _ _).mp hgt
      rcases ih hord' (cards.getD a dummyCard) (discardScore cards a) with
        ⟨heq, hall⟩ | ⟨i, hi, heq, hlt, hmax, hfirst⟩
      · right
        refine ⟨a, List.mem_cons_self a rest, heq, hgt', ?_, ?_⟩
        · intro j hj
          rcases List.mem_cons.mp hj with rfl | hj'
          · exact Nat.le_refl _
          · exact hall j hj'
        · intro j hj hja
          rcases List.mem_cons.mp hj with rfl | hj'
          · omega
          · have := halt j hj'
            omega
      · right
        refine ⟨i, List.mem_cons_of_mem a hi, heq, by omega, ?_, ?_⟩
        · intro j hj
          rcases List.mem_cons.mp hj with rfl | hj'
          · omega
          · exact hmax j hj'
        · intro j hj hji
          rcases List.mem_cons.mp hj with rfl | hj'
          · omega
          · exact hfirst j hj' hji
    · have hle : scoreVal (discardScore cards a) ≤ scoreVal bs := by
        by_contra hc
        exact hgt ((optGT_iff _ _).mpr (by omega))
      rcases ih hord' bcard bs with ⟨heq, hall⟩ | ⟨i, hi, heq, hlt, hmax, hfirst⟩
      · left
        refine ⟨heq, ?_⟩
        intro j hj
        rcases List.mem_cons.mp hj with rfl | hj'
        · exact hle
        · exact hall j hj'
      · right
        refine ⟨i, List.mem_cons_of_mem a hi, heq, hlt, ?_, ?_⟩
        · intro j hj
          rcases List.mem_cons.mp hj with rfl | hj'
          · omega
          · exact hmax j hj'
        · intro j hj hji
          rcases List.mem_cons.mp hj with rfl | hj'
          · omega
          · exact hfirst j hj' hji

/-- C9: on a 10-card input, `chooseCardToDiscard` returns one of the
input cards, and the score of the best arrangement of the 9 cards left
after removing the returned card is at least the score obtained by
removing any other single card, with ties broken by the first such card
in iteration order. -/
theorem chooseCardToDiscard_optimal (cards : List Card) (h : cards.length = 10) :
    chooseCardToDiscard cards ∈ cards
      ∧ ∃ i, i < cards.length ∧ chooseCardToDiscard cards = cards.getD i dummyCard
        ∧ (∀ j, j < cards.length →
            scoreVal (discardScore cards j) ≤ scoreVal (discardScore cards i))
        ∧ (∀ j, j < i →
            scoreVal (discardScore cards j) < scoreVal (discardScore cards i)) := by
  have hcc : chooseCardToDiscard cards
      = (chooseLoop cards (List.range cards.length) (cards.getD 0 dummyCard) none).1 := by
    unfold chooseCardToDiscard
    rw [if_neg (by omega)]
  rcases chooseLoop_go cards (List.range cards.length) (List.pairwise_lt_range _)
      (cards.getD 0 dummyCard) none with ⟨heq, hall⟩ | ⟨i, hi, heq, hlt, hmax, hfirst⟩
  · have h0 : ∀ j, j < cards.length → scoreVal (discardScore cards j) = 0 := by
      intro j hj
      have hx : scoreVal (discardScore cards j) ≤ 0 := hall j (List.mem_range.mpr hj)
      omega
    have h0lt : 0 < cards.length := by omega
    refine ⟨?_, 0, by omega, by rw [hcc, heq], ?_, ?_⟩
    · rw [hcc, heq]
      show cards.getD 0 dummyCard ∈ cards
      rw [List.getD_eq_getElem cards dummyCard h0lt]
      exact List.getElem_mem h0lt
    · intro j hj
      rw [h0 j hj, h0 0 h0lt]
    · intro j hj
      omega
  · have hilt : i < cards.length := List.mem_range.mp hi
    refine ⟨?_, i, hilt, by rw [hcc, heq], ?_, ?_⟩
    · rw [hcc, heq]
      show cards.getD i dummyCard ∈ cards
      rw [List.getD_eq_getElem cards dummyCard hilt]
      exact List.getElem_mem hilt
    · intro j hj
      exact hmax j (List.mem_range.mpr hj)
    · intro j hji
      exact hfirst j (List.mem_range.mpr (by omega)) hji

def searchHand10 : List Card :=
  searchHand9 ++ [⟨"2-spades", Suit.spades, Rank.r2, false⟩]

theorem chooseCardToDiscard_optimal_witness :
    searchHand10.length = 10 ∧ chooseCardToDiscard searchHand10 ∈ searchHand10 :=
  ⟨by decide, (chooseCardToDiscard_optimal searchHand10 (by decide)).1⟩

/-! ## C5 — round scoring is zero-sum with a symmetric ledger -/

def sumTotals (scores : List RoundScore) : Int :=
  (scores.map (fun s => s.totalPoints)).sum

def findScore (scores : List RoundScore) (pid : String) : Option RoundScore :=
  scores.find? (fun s => s.playerId == pid)

/-- The pair net of a matchup between the i-th and j-th active players. -/
def netOf (active : List Player) (i j : Nat) : Int :=
  ((compareArrangements (active.getD i dummyPlayer)
      (active.getD j dummyPlayer)).player1TotalPoints : Int)
    - ((compareArrangements (active.getD i dummyPlayer)
        (active.getD j dummyPlayer)).player2TotalPoints : Int)

/-- Value `v` is recorded under key `pidB` in the ledger entry of `pidA`. -/
def RecordedAt (scores : List RoundScore) (pidA pidB : String) (v : Int) : Prop :=
  ∃ e, findScore scores pidA = some e ∧ getKey e.pointsAgainst pidB = some v

theorem getKey_setKey_self (m : List (String × Int)) (k : String) (v : Int) :
    getKey (setKey m k v) k = some v := by
  induction m with
  | nil => simp [setKey, getKey]
  | cons p rest ih =>
    obtain ⟨k', v'⟩ := p
    unfold setKey
    split_ifs with hk
    · unfold getKey
      simp
    · unfold getKey
      rw [if_neg hk]
      exact ih

theorem getKey_setKey_ne (m : List (String × Int)) (k k' : String) (v : Int)
    (h : k ≠ k') :
    getKey (setKey m k v) k' = getKey m k' := by
  induction m with
  | nil =>
    unfold setKey getKey
    rw [if_neg h]
    rfl
  | cons p rest ih =>
    obtain ⟨a, b⟩ := p
    unfold setKey
    split_ifs with ha
    · unfold getKey
      rw [if_neg h, if_neg (ha ▸ h)]
    · unfold getKey
      split_ifs with ha'
      · rfl
      · exact ih

theorem addPoints_map_playerId (scores : List RoundScore) (pid k : String) (v : Int) :
    (addPoints scores pid k v).map (fun s => s.playerId)
      = scores.map (fun s => s.playerId) := by
  induction scores with
  | nil => rfl
  | cons s rest ih =>
    unfold addPoints
    split_ifs with hp
    · simp
    · simp only [List.map_cons]
      rw [ih]

theorem sumTotals_addPoints (scores : List RoundScore) (pid k : String) (v : Int)
    (h : pid ∈ scores.map (fun s => s.playerId)) :
    sumTotals (addPoints scores pid k v) = sumTotals scores + v := by
  induction scores with
  | nil => simp at h
  | cons s rest ih =>
    unfold addPoints
    split_ifs with hp
    · unfold sumTotals
      simp only [List.map_cons, List.sum_cons]
      ring
    · have h' : pid ∈ rest.map (fun s => s.playerId) := by
        simp only [List.map_cons, List.mem_cons] at h
        rcases h with h | h
        · exact absurd h.symm hp
        · exact h
      unfold sumTotals at ih ⊢
      simp only [List.map_cons, List.sum_cons]
      rw [ih h']
      ring

theorem find?_addPoints_ne (scores : List RoundScore) (pid pid' k : String) (v : Int)
    (h : pid' ≠ pid) :
    findScore (addPoints scores pid k v) pid' = findScore scores pid' := by
  induction scores with
  | nil => rfl
  | cons s rest ih =>
    unfold addPoints
    split_ifs with hp
    · have hbeq : (s.playerId == pid') = false := by
        simp only [beq_eq_false_iff_ne]
        rw [hp]
        exact fun hh => h hh.symm
      unfold findScore
      simp only [List.find?_cons]
      simp only [hbeq]
    · cases hsp : (s.playerId == pid') with
      | true =>
        unfold findScore
        simp only [List.find?_cons, hsp]
      | false =>
        unfold findScore at ih ⊢
        simp only [List.find?_cons, hsp]
        exact ih

theorem find?_addPoints_self (scores : List RoundScore) (pid k : String) (v : Int)
    (e : RoundScore) (h : findScore scores pid = some e) :
    findScore (addPoints scores pid k v) pid
      = some { e with pointsAgainst := setKey e.pointsAgainst k v,
                      totalPoints := e.totalPoints + v } := by
  induction scores with
  | nil => simp [findScore] at h
  | cons s rest ih =>
    unfold addPoints
    split_ifs with hp
    · have hpos : (s.playerId == pid) = true := by simp [hp]
      have he : e = s := by
        unfold findScore at h
        simp only [List.find?_cons, hpos] at h
        simp only [Option.some.injEq] at h
        exact h.symm
      subst he
      unfold findScore
      simp only [List.find?_cons]
      simp only [hpos]
    · have hneg : (s.playerId == pid) = false := by simp [hp]
      unfold findScore at h ih ⊢
      simp only [List.find?_cons, hneg] at h ⊢
      exact ih h

theorem findScore_isSome_of_mem (scores : List RoundScore) (pid : String)
    (h : pid ∈ scores.map (fun s => s.playerId)) :
    ∃ e, findScore scores pid = some e := by
  rcases List.mem_map.mp h with ⟨s, hs, heq⟩
  have : (findScore scores pid).isSome = true := by
    unfold findScore
    exact List.find?_isSome.mpr ⟨s, hs, by simp [heq]⟩
  exact Option.isSome_iff_exists.mp this

theorem matchupStep_player1Id (id1 id2 nm : String) (l1 l2 : Layer)
    (acc : MatchupResult) :
    (matchupStep id1 id2 nm l1 l2 acc).player1Id = acc.player1Id := by
  unfold matchupStep
  dsimp only
  split_ifs <;> rfl

theorem matchupStep_player2Id (id1 id2 nm : String) (l1 l2 : Layer)
    (acc : MatchupResult) :
    (matchupStep id1 id2 nm l1 l2 acc).player2Id = acc.player2Id := by
  unfold matchupStep
  dsimp only
  split_ifs <;> rfl

theorem compareArrangements_player1Id (p1 p2 : Player) :
    (compareArrangements p1 p2).player1Id = p1.id := by
  unfold compareArrangements
  dsimp only
  split_ifs <;>
    simp [matchupStep_player1Id]

theorem compareArrangements_player2Id (p1 p2 : Player) :
    (compareArrangements p1 p2).player2Id = p2.id := by
  unfold compareArrangements
  dsimp only
  split_ifs <;>
    simp [matchupStep_player2Id]

theorem getD_mem_of_lt {α : Type} (l : List α) (i : Nat) (d : α) (h : i < l.length) :
    l.getD i d ∈ l := by
  rw [List.getD_eq_getElem l d h]
  exact List.getElem_mem h

theorem mem_pairIndices (n i j : Nat) :
    (i, j) ∈ pairIndices n ↔ i < j ∧ j < n := by
  unfold pairIndices
  simp only [List.mem_flatMap, List.mem_map, List.mem_filter, List.mem_range,
    decide_eq_true_eq, Prod.mk.injEq]
  constructor
  · rintro ⟨a, ha, b, ⟨⟨hb, hab⟩, rfl, rfl⟩⟩
    exact ⟨hab, hb⟩
  · rintro ⟨hij, hj⟩
    exact ⟨i, by omega, j, ⟨⟨hj, hij⟩, rfl, rfl⟩⟩

theorem roundPairStep_map_playerId (active : List Player) (scores : List RoundScore)
    (p : Nat × Nat) :
    (roundPairStep active scores p).map (fun s => s.playerId)
      = scores.map (fun s => s.playerId) := by
  unfold roundPairStep
  dsimp only
  rw [addPoints_map_playerId, addPoints_map_playerId]

theorem roundPairStep_sum (active : List Player) (scores : List RoundScore)
    (p : Nat × Nat)
    (hids : scores.map (fun s => s.playerId) = active.map (fun q => q.id))
    (h1 : p.1 < active.length) (h2 : p.2 < active.length) :
    sumTotals (roundPairStep active scores p) = sumTotals scores := by
  unfold roundPairStep
  dsimp only
  have hm1 : (compareArrangements (active.getD p.1 dummyPlayer)
      (active.getD p.2 dummyPlayer)).player1Id ∈ scores.map (fun s => s.playerId) := by
    rw [compareArrangements_player1Id, hids]
    exact List.mem_map_of_mem _ (getD_mem_of_lt active p.1 dummyPlayer h1)
  have hm2 : (compareArrangements (active.getD p.1 dummyPlayer)
      (active.getD p.2 dummyPlayer)).player2Id
      ∈ (addPoints scores
          (compareArrangements (active.getD p.1 dummyPlayer)
            (active.getD p.2 dummyPlayer)).player1Id
          (compareArrangements (active.getD p.1 dummyPlayer)
            (active.getD p.2 dummyPlayer)).player2Id
          (((compareArrangements (active.getD p.1 dummyPlayer)
              (active.getD p.2 dummyPlayer)).player1TotalPoints : Int)
            - ((compareArrangements (active.getD p.1 dummyPlayer)
                (active.getD p.2 dummyPlayer)).player2TotalPoints : Int))).map
          (fun s => s.playerId) := by
    rw [addPoints_map_playerId, compareArrangements_player2Id, hids]
    exact List.mem_map_of_mem _ (getD_mem_of_lt active p.2 dummyPlayer h2)
  rw [sumTotals_addPoints _ _ _ _ hm2, sumTotals_addPoints _ _ _ _ hm1]
  ring

theorem foldl_roundPairStep_sum (active : List Player) (pairs : List (Nat × Nat))
    (scores : List RoundScore)
    (hids : scores.map (fun s => s.playerId) = active.map (fun q => q.id))
    (hb : ∀ p ∈ pairs, p.1 < active.length ∧ p.2 < active.length) :
    sumTotals (pairs.foldl (roundPairStep active) scores) = sumTotals scores := by
  induction pairs generalizing scores with
  | nil => rfl
  | cons q rest ih =>
    rw [List.foldl_cons]
    have hq := hb q (List.mem_cons_self q rest)
    rw [ih (roundPairStep active scores q)
      (by rw [roundPairStep_map_playerId, hids])
      (fun p hp => hb p (List.mem_cons_of_mem q hp))]
    exact roundPairStep_sum active scores q hids hq.1 hq.2

theorem foldl_roundPairStep_map_playerId (active : List Player)
    (pairs : List (Nat × Nat)) (scores : List RoundScore) :
    (pairs.foldl (roundPairStep active) scores).map (fun s => s.playerId)
      = scores.map (fun s => s.playerId) := by
  induction pairs generalizing scores with
  | nil => rfl
  | cons q rest ih =>
    rw [List.foldl_cons, ih, roundPairStep_map_playerId]

theorem sumTotals_init (active : List Player) :
    sumTotals (active.map (fun p => (⟨p.id, p.name, [], 0, 0⟩ : RoundScore))) = 0 := by
  induction active with
  | nil => rfl
  | cons p rest ih =>
    unfold sumTotals at ih ⊢
    simp only [List.map_cons, List.map_map, List.sum_cons] at ih ⊢
    rw [ih]
    omega

theorem recorded_stable_addPoints (scores : List RoundScore)
    (pidA pidB : String) (v : Int) (pid k : String) (w : Int)
    (hrec : RecordedAt scores pidA pidB v) (h : pid ≠ pidA ∨ k ≠ pidB) :
    RecordedAt (addPoints scores pid k w) pidA pidB v := by
  obtain ⟨e, he, hk⟩ := hrec
  by_cases hpa : pid = pidA
  · subst hpa
    have hk' : k ≠ pidB := by tauto
    exact ⟨{ e with pointsAgainst := setKey e.pointsAgainst k w, totalPoints := e.totalPoints + w },
      find?_addPoints_self scores pid k w e he,
      by rw [getKey_setKey_ne _ _ _ _ hk']; exact hk⟩
  · exact ⟨e, by
      rw [find?_addPoints_ne scores pid pidA k w (fun hh => hpa hh.symm)]
      exact he, hk⟩

theorem recorded_after_update (scores : List RoundScore)
    (pid1 pid2 : String) (net : Int)
    (hmem1 : pid1 ∈ scores.map (fun s => s.playerId))
    (hmem2 : pid2 ∈ scores.map (fun s => s.playerId))
    (hne : pid1 ≠ pid2) :
    RecordedAt (addPoints (addPoints scores pid1 pid2 net) pid2 pid1 (-net))
        pid1 pid2 net
      ∧ RecordedAt (addPoints (addPoints scores pid1 pid2 net) pid2 pid1 (-net))
          pid2 pid1 (-net) := by
  obtain ⟨e1, he1⟩ := findScore_isSome_of_mem scores pid1 hmem1
  obtain ⟨e2, he2⟩ := findScore_isSome_of_mem scores pid2 hmem2
  constructor
  · refine ⟨{ e1 with pointsAgainst := setKey e1.pointsAgainst pid2 net, totalPoints := e1.totalPoints + net }, ?_, ?_⟩
    · rw [find?_addPoints_ne _ pid2 pid1 pid1 (-net) hne]
      exact find?_addPoints_self scores pid1 pid2 net e1 he1
    · exact getKey_setKey_self _ _ _
  · refine ⟨{ e2 with pointsAgainst := setKey e2.pointsAgainst pid1 (-net), totalPoints := e2.totalPoints + (-net) }, ?_, ?_⟩
    · apply find?_addPoints_self
      rw [find?_addPoints_ne scores pid1 pid2 pid2 net (Ne.symm hne)]
      exact he2
    · exact getKey_setKey_self _ _ _

theorem pid_inj (active : List Player)
    (hnodup : (active.map (fun p => p.id)).Nodup)
    {i j : Nat} (hi : i < active.length) (hj : j < active.length)
    (h : (active.getD i dummyPlayer).id = (active.getD j dummyPlayer).id) : i = j := by
  rw [List.getD_eq_getElem active dummyPlayer hi,
    List.getD_eq_getElem active dummyPlayer hj] at h
  have hi' : i < (active.map (fun p => p.id)).length := by
    rw [List.length_map]
    exact hi
  have hj' : j < (active.map (fun p => p.id)).length := by
    rw [List.length_map]
    exact hj
  have hm : (active.map (fun p => p.id))[i] = (active.map (fun p => p.id))[j] := by
    rw [List.getElem_map, List.getElem_map]
    exact h
  exact (List.Nodup.getElem_inj_iff hnodup).mp hm

/-- Source `roundPairStep` for the pair `q` establishes its own ledger entries. -/
theorem roundPairStep_establishes (active : List Player) (scores : List RoundScore)
    (q : Nat × Nat)
    (hnodup : (active.map (fun p => p.id)).Nodup)
    (hids : scores.map (fun s => s.playerId) = active.map (fun p => p.id))
    (hq1 : q.1 < q.2) (hq2 : q.2 < active.length) :
    RecordedAt (roundPairStep active scores q)
        ((active.getD q.1 dummyPlayer).id) ((active.getD q.2 dummyPlayer).id)
        (netOf active q.1 q.2)
      ∧ RecordedAt (roundPairStep active scores q)
          ((active.getD q.2 dummyPlayer).id) ((active.getD q.1 dummyPlayer).id)
          (-(netOf active q.1 q.2)) := by
  have hq1' : q.1 < active.length := by omega
  have hneid : (active.getD q.1 dummyPlayer).id ≠ (active.getD q.2 dummyPlayer).id := by
    intro hh
    have := pid_inj active hnodup hq1' hq2 hh
    omega
  have hm1 : (active.getD q.1 dummyPlayer).id ∈ scores.map (fun s => s.playerId) := by
    rw [hids]
    exact List.mem_map_of_mem _ (getD_mem_of_lt active q.1 dummyPlayer hq1')
  have hm2 : (active.getD q.2 dummyPlayer).id ∈ scores.map (fun s => s.playerId) := by
    rw [hids]
    exact List.mem_map_of_mem _ (getD_mem_of_lt active q.2 dummyPlayer hq2)
  have := recorded_after_update scores
    ((active.getD q.1 dummyPlayer).id) ((active.getD q.2 dummyPlayer).id)
    (netOf active q.1 q.2) hm1 hm2 hneid
  unfold roundPairStep
  dsimp only
  rw [compareArrangements_player1Id, compareArrangements_player2Id]
  exact this

/-- A later pair update leaves an already-recorded (or its own) ledger
entry pair correct. -/
theorem roundPairStep_preserves (active : List Player) (scores : List RoundScore)
    (qa qb i j : Nat)
    (hnodup : (active.map (fun p => p.id)).Nodup)
    (hids : scores.map (fun s => s.playerId) = active.map (fun p => p.id))
    (hij1 : i < j) (hij2 : j < active.length)
    (hq1 : qa < qb) (hq2 : qb < active.length)
    (hrec : RecordedAt scores ((active.getD i dummyPlayer).id)
        ((active.getD j dummyPlayer).id) (netOf active i j)
      ∧ RecordedAt scores ((active.getD j dummyPlayer).id)
          ((active.getD i dummyPlayer).id) (-(netOf active i j))) :
    RecordedAt (roundPairStep active scores (qa, qb))
        ((active.getD i dummyPlayer).id) ((active.getD j dummyPlayer).id)
        (netOf active i j)
      ∧ RecordedAt (roundPairStep active scores (qa, qb))
          ((active.getD j dummyPlayer).id) ((active.getD i dummyPlayer).id)
          (-(netOf active i j)) := by
  by_cases hsame : qa = i ∧ qb = j
  · obtain ⟨rfl, rfl⟩ := hsame
    exact roundPairStep_establishes active scores (qa, qb) hnodup hids hq1 hq2
  · have hi' : i < active.length := by omega
    have hqa' : qa < active.length := by omega
    have key : ∀ a b, a < active.length → b < active.length →
        (active.getD a dummyPlayer).id = (active.getD b dummyPlayer).id → a = b :=
      fun a b ha hb h => pid_inj active hnodup ha hb h
    have c1 : (active.getD qa dummyPlayer).id ≠ (active.getD i dummyPlayer).id
        ∨ (active.getD qb dummyPlayer).id ≠ (active.getD j dummyPlayer).id := by
      by_cases h1 : (active.getD qa dummyPlayer).id = (active.getD i dummyPlayer).id
      · right
        intro h2
        exact hsame ⟨key qa i hqa' hi' h1, key qb j hq2 hij2 h2⟩
      · left
        exact h1
    have c2 : (active.getD qb dummyPlayer).id ≠ (active.getD i dummyPlayer).id
        ∨ (active.getD qa dummyPlayer).id ≠ (active.getD j dummyPlayer).id := by
      by_cases h1 : (active.getD qb dummyPlayer).id = (active.getD i dummyPlayer).id
      · right
        intro h2
        have e1 := key qb i hq2 hi' h1
        have e2 := key qa j hqa' hij2 h2
        omega
      · left
        exact h1
    have c3 : (active.getD qa dummyPlayer).id ≠ (active.getD j dummyPlayer).id
        ∨ (active.getD qb dummyPlayer).id ≠ (active.getD i dummyPlayer).id := by
      by_cases h1 : (active.getD qa dummyPlayer).id = (active.getD j dummyPlayer).id
      · right
        intro h2
        have e1 := key qa j hqa' hij2 h1
        have e2 := key qb i hq2 hi' h2
        omega
      · left
        exact h1
    have c4 : (active.getD qb dummyPlayer).id ≠ (active.getD j dummyPlayer).id
        ∨ (active.getD qa dummyPlayer).id ≠ (active.getD i dummyPlayer).id := by
      by_cases h1 : (active.getD qb dummyPlayer).id = (active.getD j dummyPlayer).id
      · right
        intro h2
        exact hsame ⟨key qa i hqa' hi' h2, key qb j hq2 hij2 h1⟩
      · left
        exact h1
    unfold roundPairStep
    dsimp only
    rw [compareArrangements_player1Id, compareArrangements_player2Id]
    constructor
    · exact recorded_stable_addPoints _ _ _ _ _ _ _
        (recorded_stable_addPoints _ _ _ _ _ _ _ hrec.1 c1) c2
    · exact recorded_stable_addPoints _ _ _ _ _ _ _
        (recorded_stable_addPoints _ _ _ _ _ _ _ hrec.2 c3) c4

theorem foldl_roundPairStep_preserves (active : List Player)
    (hnodup : (active.map (fun p => p.id)).Nodup) (i j : Nat)
    (hij1 : i < j) (hij2 : j < active.length) (pairs : List (Nat × Nat)) :
    ∀ scores : List RoundScore,
      (∀ p ∈ pairs, p.1 < p.2 ∧ p.2 < active.length) →
      scores.map (fun s => s.playerId) = active.map (fun p => p.id) →
      (RecordedAt scores ((active.getD i dummyPlayer).id)
          ((active.getD j dummyPlayer).id) (netOf active i j)
        ∧ RecordedAt scores ((active.getD j dummyPlayer).id)
            ((active.getD i dummyPlayer).id) (-(netOf active i j))) →
      (RecordedAt (pairs.foldl (roundPairStep active) scores)
          ((active.getD i dummyPlayer).id) ((active.getD j dummyPlayer).id)
          (netOf active i j)
        ∧ RecordedAt (pairs.foldl (roundPairStep active) scores)
            ((active.getD j dummyPlayer).id) ((active.getD i dummyPlayer).id)
            (-(netOf active i j))) := by
  induction pairs with
  | nil => exact fun scores _ _ hrec => hrec
  | cons q rest ih =>
    intro scores hb hids hrec
    obtain ⟨qa, qb⟩ := q
    have hq := hb (qa, qb) (List.mem_cons_self _ rest)
    rw [List.foldl_cons]
    exact ih (roundPairStep active scores (qa, qb))
      (fun p hp => hb p (List.mem_cons_of_mem _ hp))
      (by rw [roundPairStep_map_playerId]; exact hids)
      (roundPairStep_preserves active scores qa qb i j hnodup hids hij1 hij2
        hq.1 hq.2 hrec)

theorem foldl_recorded (active : List Player)
    (hnodup : (active.map (fun p => p.id)).Nodup) (i j : Nat)
    (pairs : List (Nat × Nat)) :
    ∀ scores : List RoundScore,
      (∀ p ∈ pairs, p.1 < p.2 ∧ p.2 < active.length) →
      scores.map (fun s => s.playerId) = active.map (fun p => p.id) →
      (i, j) ∈ pairs →
      (RecordedAt (pairs.foldl (roundPairStep active) scores)
          ((active.getD i dummyPlayer).id) ((active.getD j dummyPlayer).id)
          (netOf active i j)
        ∧ RecordedAt (pairs.foldl (roundPairStep active) scores)
            ((active.getD j dummyPlayer).id) ((active.getD i dummyPlayer).id)
            (-(netOf active i j))) := by
  induction pairs with
  | nil => intro scores _ _ hij; simp at hij
  | cons q rest ih =>
    intro scores hb hids hij
    rw [List.foldl_cons]
    rcases List.mem_cons.mp hij with heq | hmem
    · have hq := hb q (List.mem_cons_self q rest)
      subst heq
      have hest := roundPairStep_establishes active scores (i, j) hnodup hids hq.1 hq.2
      exact foldl_roundPairStep_preserves active hnodup i j hq.1 hq.2 rest
        (roundPairStep active scores (i, j))
        (fun p hp => hb p (List.mem_cons_of_mem _ hp))
        (by rw [roundPairStep_map_playerId]; exact hids)
        hest
    · exact ih (roundPairStep active scores q)
        (fun p hp => hb p (List.mem_cons_of_mem _ hp))
        (by rw [roundPairStep_map_playerId]; exact hids)
        hmem

theorem recorded_map_cash (scores : List RoundScore) (a b : String) (v : Int)
    (h : RecordedAt scores a b v) :
    RecordedAt (scores.map (fun s => { s with cashChange := s.totalPoints })) a b v := by
  obtain ⟨e, he, hk⟩ := h
  refine ⟨{ e with cashChange := e.totalPoints }, ?_, hk⟩
  unfold findScore at he ⊢
  rw [List.find?_map]
  have hp : ((fun s => s.playerId == a)
      ∘ (fun (s : RoundScore) => { s with cashChange := s.totalPoints }))
      = (fun (s : RoundScore) => s.playerId == a) := rfl
  rw [hp, he]
  rfl

/-- C5: round scoring is zero-sum — the net of every pair is entered once
positively and once negatively in the two ledgers, the totals over all
returned entries sum to 0, and the cash change of each entry equals its total
points. -/
theorem calculateRoundScores_zero_sum (players : List Player)
    (hnodup : ((players.filter (fun p => !p.isBankrupt)).map (fun p => p.id)).Nodup) :
    ((calculateRoundScores players).map (fun s => s.totalPoints)).sum = 0
    ∧ (∀ s ∈ calculateRoundScores players, s.cashChange = s.totalPoints)
    ∧ (∀ i j, i < j → j < (players.filter (fun p => !p.isBankrupt)).length →
        RecordedAt (calculateRoundScores players)
          (((players.filter (fun p => !p.isBankrupt)).getD i dummyPlayer).id)
          (((players.filter (fun p => !p.isBankrupt)).getD j dummyPlayer).id)
          (netOf (players.filter (fun p => !p.isBankrupt)) i j)
        ∧ RecordedAt (calculateRoundScores players)
            (((players.filter (fun p => !p.isBankrupt)).getD j dummyPlayer).id)
            (((players.filter (fun p => !p.isBankrupt)).getD i dummyPlayer).id)
            (-(netOf (players.filter (fun p => !p.isBankrupt)) i j))) := by
  set active := players.filter (fun p => !p.isBankrupt) with hactive
  set scores0 : List RoundScore := active.map (fun p => ⟨p.id, p.name, [], 0, 0⟩)
    with hscores0
  set scoresF := (pairIndices active.length).foldl (roundPairStep active) scores0
    with hscoresF
  have hcal : calculateRoundScores players
      = scoresF.map (fun s => { s with cashChange := s.totalPoints }) := by
    unfold calculateRoundScores
    dsimp only
  have hids0 : scores0.map (fun s => s.playerId) = active.map (fun p => p.id) := by
    rw [hscores0]
    rw [List.map_map]
    rfl
  have hb : ∀ p ∈ pairIndices active.length, p.1 < p.2 ∧ p.2 < active.length := by
    intro p hp
    obtain ⟨a, b⟩ := p
    exact (mem_pairIndices active.length a b).mp hp
  have hbSum : ∀ p ∈ pairIndices active.length,
      p.1 < active.length ∧ p.2 < active.length := by
    intro p hp
    have := hb p hp
    constructor <;> omega
  refine ⟨?_, ?_, ?_⟩
  · rw [hcal]
    have h1 : ((scoresF.map (fun s => { s with cashChange := s.totalPoints })).map
        (fun s => s.totalPoints)).sum = sumTotals scoresF := by
      unfold sumTotals
      rw [List.map_map]
      rfl
    rw [h1, hscoresF, foldl_roundPairStep_sum active _ scores0 hids0 hbSum, hscores0,
      sumTotals_init]
  · rw [hcal]
    intro s hs
    rcases List.mem_map.mp hs with ⟨t, ht, rfl⟩
    rfl
  · intro i j hij1 hij2
    have hmem : (i, j) ∈ pairIndices active.length :=
      (mem_pairIndices _ _ _).mpr ⟨hij1, hij2⟩
    have hrec := foldl_recorded active hnodup i j (pairIndices active.length)
      scores0 hb hids0 hmem
    rw [hcal, hscoresF]
    exact ⟨recorded_map_cash _ _ _ _ hrec.1, recorded_map_cash _ _ _ _ hrec.2⟩

theorem calculateRoundScores_zero_sum_witness :
    (((([normalPlayer1, normalPlayer2].filter (fun p => !p.isBankrupt)).map
        (fun p => p.id)).Nodup))
    ∧ ((calculateRoundScores [normalPlayer1, normalPlayer2]).map
        (fun s => s.totalPoints)).sum = 0 :=
  ⟨by decide,
    (calculateRoundScores_zero_sum [normalPlayer1, normalPlayer2] (by decide)).1⟩
